import Mathlib

/-!
Shallow embedding of the `obfuse-rs` repository: the build-time seed mixing and
encryption functions (`obfuse-macros/src/encrypt.rs`), the XOR cipher backend
(`obfuse-core/src/xor.rs`), and the runtime `ObfuseStr` value
(`obfuse-core/src/obfuse_str.rs`).  Bytes are modelled as `Nat` with explicit
`% 256` wherever the Rust code performs wrapping `u8` arithmetic.
-/

namespace Obfuse

/-! ## Seed mixing (`obfuse-macros/src/encrypt.rs`, `create_seed_bytes`) -/

/-- One step of the absorption loop of `create_seed_bytes`:
`result[i % 32] ^= byte;` followed by
`result[(i + 7) % 32] = result[(i + 7) % 32].wrapping_add(byte.wrapping_mul((i as u8).wrapping_add(1)));`.
`i as u8` is `i % 256`; `wrapping_mul`/`wrapping_add` are `% 256`. -/
def absorbByte (acc : List Nat) (i b : Nat) : List Nat :=
  let acc1 := acc.set (i % 32) (acc.getD (i % 32) 0 ^^^ b)
  acc1.set ((i + 7) % 32)
    ((acc1.getD ((i + 7) % 32) 0 + b * ((i % 256 + 1) % 256) % 256) % 256)

/-- One step of a mixing pass of `create_seed_bytes`:
`result[i] = result[i].wrapping_add(result[(i + 13) % 32]).wrapping_mul(result[(i + 7) % 32].wrapping_add(1));`. -/
def mixSlot (acc : List Nat) (i : Nat) : List Nat :=
  acc.set i
    ((acc.getD i 0 + acc.getD ((i + 13) % 32) 0) % 256 *
      ((acc.getD ((i + 7) % 32) 0 + 1) % 256) % 256)

/-- One full mixing pass over slots `0..32` in order, updating in place. -/
def mixPass (acc : List Nat) : List Nat :=
  (List.range 32).foldl mixSlot acc

/-- `create_seed_bytes` from `obfuse-macros/src/encrypt.rs`: a 32-byte all-zero
accumulator absorbs each seed byte in order, then three full mixing passes run. -/
def create_seed_bytes (seed : List Nat) : List Nat :=
  let init : List Nat := List.replicate 32 0
  let absorbed := seed.enum.foldl (fun acc p => absorbByte acc p.1 p.2) init
  mixPass (mixPass (mixPass absorbed))

/-- The absorption step as the spec words it: XOR `b` into slot `i mod 32`,
then add `b * (i+1) mod 256` (wrapping) into slot `(i+7) mod 32`. -/
def specAbsorbByte (acc : List Nat) (i b : Nat) : List Nat :=
  let acc1 := acc.set (i % 32) (acc.getD (i % 32) 0 ^^^ b)
  acc1.set ((i + 7) % 32) ((acc1.getD ((i + 7) % 32) 0 + b * (i + 1)) % 256)

/-- The pass step as the spec words it: set slot `j` to
`(slot[j] + slot[(j+13) mod 32]) * (slot[(j+7) mod 32] + 1)`
with wrapping mod-256 arithmetic. -/
def specMixSlot (acc : List Nat) (j : Nat) : List Nat :=
  acc.set j
    ((acc.getD j 0 + acc.getD ((j + 13) % 32) 0) *
      (acc.getD ((j + 7) % 32) 0 + 1) % 256)

/-- The spec's reference seed-mixing algorithm (§4.2 of the spec), stated
independently of the source: zero accumulator, absorb each byte, then exactly
three full passes over all 32 slots in order. -/
def specSeedMix (seed : List Nat) : List Nat :=
  let init : List Nat := List.replicate 32 0
  let absorbed := seed.enum.foldl (fun acc p => specAbsorbByte acc p.1 p.2) init
  let pass := fun acc => (List.range 32).foldl specMixSlot acc
  pass (pass (pass absorbed))

lemma absorbByte_eq_spec (acc : List Nat) (i b : Nat) :
    absorbByte acc i b = specAbsorbByte acc i b := by
  simp only [absorbByte, specAbsorbByte]
  have h1 : (i % 256 + 1) % 256 = (i + 1) % 256 := by omega
  rw [h1]
  have h2 : b * ((i + 1) % 256) % 256 = b * (i + 1) % 256 := by
    conv_rhs => rw [Nat.mul_mod]
    conv_lhs => rw [Nat.mul_mod, Nat.mod_mod_of_dvd _ dvd_rfl]
  rw [h2]
  congr 1
  generalize b * (i + 1) = y
  generalize (List.set acc (i % 32) (acc.getD (i % 32) 0 ^^^ b)).getD ((i + 7) % 32) 0 = x
  omega

lemma mixSlot_eq_spec (acc : List Nat) (j : Nat) :
    mixSlot acc j = specMixSlot acc j := by
  simp only [mixSlot, specMixSlot]
  rw [Nat.mul_mod
    (acc.getD j 0 + acc.getD ((j + 13) % 32) 0) (acc.getD ((j + 7) % 32) 0 + 1) 256]

/-- Claim C2: for every seed byte sequence, `create_seed_bytes` computes exactly
the spec's reference seed-mixing algorithm (zero 32-byte accumulator, per-byte
XOR/positional-add absorption, then exactly three in-order mixing passes with
wrapping mod-256 arithmetic), and the result is 32 bytes long. -/
lemma create_seed_bytes_length (seed : List Nat) : (create_seed_bytes seed).length = 32 := by
  simp only [create_seed_bytes, mixPass]
  have hset : ∀ (l : List Nat) (k v : Nat), (l.set k v).length = l.length := by
    intro l k v
    exact List.length_set l k v
  have hfold : ∀ (f : List Nat → Nat → List Nat),
      (∀ acc a, (f acc a).length = acc.length) →
      ∀ (l : List Nat) (acc : List Nat), (l.foldl f acc).length = acc.length := by
    intro f hf l
    induction l with
    | nil => intro acc; rfl
    | cons a t ih => intro acc; rw [List.foldl_cons, ih, hf]
  have habs : ∀ (l : List (Nat × Nat)) (acc : List Nat),
      (l.foldl (fun acc p => absorbByte acc p.1 p.2) acc).length = acc.length := by
    intro l
    induction l with
    | nil => intro acc; rfl
    | cons a t ih =>
        intro acc
        rw [List.foldl_cons, ih]
        simp only [absorbByte]
        rw [hset, hset]
  have hmix : ∀ acc : List Nat, ((List.range 32).foldl mixSlot acc).length = acc.length :=
    fun acc => hfold mixSlot (fun acc a => by simp only [mixSlot]; exact hset _ _ _) _ acc
  rw [hmix, hmix, hmix, habs, List.length_replicate]

theorem claim_C2 (seed : List Nat) :
    create_seed_bytes seed = specSeedMix seed ∧ (create_seed_bytes seed).length = 32 := by
  refine ⟨?_, create_seed_bytes_length seed⟩
  simp only [create_seed_bytes, specSeedMix, mixPass]
  have habs : (fun (acc : List Nat) (p : Nat × Nat) => absorbByte acc p.1 p.2) =
      fun acc p => specAbsorbByte acc p.1 p.2 := by
    funext acc p
    exact absorbByte_eq_spec acc p.1 p.2
  have hmix : mixSlot = specMixSlot := by
    funext acc j
    exact mixSlot_eq_spec acc j
  rw [habs, hmix]

/-! ## Error type (`obfuse-core/src/error.rs`) -/

/-- Model of `std::str::Utf8Error`: the diagnostic carried by `InvalidUtf8`.
Only the `valid_up_to` field (byte offset of the first invalid sequence) is
modelled; it is the datum the spec names. -/
structure Utf8Error where
  valid_up_to : Nat
deriving DecidableEq, Repr

/-- `ObfuseError` from `obfuse-core/src/error.rs`. -/
inductive ObfuseError where
  | AllocationFailed : ObfuseError
  | AuthenticationFailed : ObfuseError
  | InvalidUtf8 : Utf8Error → ObfuseError
deriving DecidableEq, Repr

/-! ## XOR backend (`obfuse-core/src/xor.rs`) -/

namespace XorCipher

/-- `KEY_SIZE` for the XOR cipher. -/
def KEY_SIZE : Nat := 32

/-- `NONCE_SIZE` for the XOR cipher (unused by the cipher itself). -/
def NONCE_SIZE : Nat := 12

/-- The byte-wise XOR against the key cycled to the input's length:
`ciphertext.iter().enumerate().map(|(i, &byte)| byte ^ key[i % KEY_SIZE])`. -/
def xorBody (data key : List Nat) : List Nat :=
  data.enum.map fun ib => ib.2 ^^^ key.getD (ib.1 % KEY_SIZE) 0

/-- `decrypt` from `obfuse-core/src/xor.rs`: always returns `Ok` of the
XOR of the ciphertext against the cycled key; the nonce is unused. -/
def decrypt (ciphertext key _nonce : List Nat) : Except ObfuseError (List Nat) :=
  .ok (xorBody ciphertext key)

end XorCipher

/-! ## Build-time encryption (`obfuse-macros/src/encrypt.rs`) -/

/-- `encrypt_with_algorithm` for the `xor` feature: identical byte-wise XOR of
the plaintext against the cycled key; the nonce is unused. -/
def encrypt_with_algorithm (plaintext key _nonce : List Nat) : List Nat :=
  XorCipher.xorBody plaintext key

/-- `encrypt` from `obfuse-macros/src/encrypt.rs` under the `xor` feature,
parametrised by the result of `generate_key_nonce` (whose random branch draws
from the OS entropy source): encrypts and returns the `(ciphertext, key, nonce)`
triple. -/
def encrypt (keyNonce : List Nat × List Nat) (plaintext : List Nat) :
    List Nat × List Nat × List Nat :=
  (encrypt_with_algorithm plaintext keyNonce.1 keyNonce.2, keyNonce.1, keyNonce.2)

/-- Modelled from the spec: the AES-GCM / ChaCha20-Poly1305 cipher cores live in
the external `aes-gcm` and `chacha20poly1305` crates, outside this repository.
Per the spec's backend contract, an AEAD `encrypt` produces the cipher body and
appends a 16-byte authentication tag; the body is modelled as the XOR of the
plaintext against a keystream derived from key and nonce (the construction both
real backends use), with the keystream `ks` and tag function `mac` left as
parameters. -/
def aeadEncrypt (ks : List Nat → List Nat → Nat → Nat)
    (mac : List Nat → List Nat → List Nat → List Nat)
    (plaintext key nonce : List Nat) : List Nat :=
  let body := plaintext.enum.map fun ib => ib.2 ^^^ ks key nonce ib.1
  body ++ mac body key nonce

/-- Modelled from the spec: AEAD `decrypt` splits off the bundled 16-byte tag,
recomputes it over the body under the given key and nonce, and fails closed with
`AuthenticationFailed` on any mismatch or truncation; on success it returns the
un-XORed body. -/
def aeadDecrypt (ks : List Nat → List Nat → Nat → Nat)
    (mac : List Nat → List Nat → List Nat → List Nat)
    (ciphertext key nonce : List Nat) : Except ObfuseError (List Nat) :=
  if ciphertext.length < 16 then .error .AuthenticationFailed
  else
    let body := ciphertext.take (ciphertext.length - 16)
    let tag := ciphertext.drop (ciphertext.length - 16)
    if tag = mac body key nonce then
      .ok (body.enum.map fun ib => ib.2 ^^^ ks key nonce ib.1)
    else .error .AuthenticationFailed

lemma xorBody_xorBody (data key : List Nat) :
    XorCipher.xorBody (XorCipher.xorBody data key) key = data := by
  apply List.ext_getElem
  · simp [XorCipher.xorBody]
  · intro i h1 h2
    simp only [XorCipher.xorBody, List.getElem_map, List.getElem_enum]
    rw [Nat.xor_assoc, Nat.xor_self, Nat.xor_zero]

lemma unxor_body (p key nonce : List Nat) (ks : List Nat → List Nat → Nat → Nat) :
    ((p.enum.map fun ib => ib.2 ^^^ ks key nonce ib.1).enum.map
      fun ib => ib.2 ^^^ ks key nonce ib.1) = p := by
  apply List.ext_getElem
  · simp
  · intro i h1 h2
    simp only [List.getElem_map, List.getElem_enum]
    rw [Nat.xor_assoc, Nat.xor_self, Nat.xor_zero]

/-- Claim C1: for every plaintext (including the empty one), every key of
length `KEY_SIZE` and every nonce of length `NONCE_SIZE`, decrypting the
output of the build-time `encrypt` function with the same key and nonce
returns exactly the original plaintext — for the XOR backend as implemented in
the source, and for the spec-modelled AEAD backends (any keystream, any
16-byte-tag function). -/
theorem claim_C1 (plaintext key nonce : List Nat)
    (hk : key.length = XorCipher.KEY_SIZE) (hn : nonce.length = XorCipher.NONCE_SIZE)
    (ks : List Nat → List Nat → Nat → Nat)
    (mac : List Nat → List Nat → List Nat → List Nat)
    (hmac : ∀ b k n, (mac b k n).length = 16) :
    XorCipher.decrypt (encrypt (key, nonce) plaintext).1 (encrypt (key, nonce) plaintext).2.1
        (encrypt (key, nonce) plaintext).2.2 = .ok plaintext ∧
    aeadDecrypt ks mac (aeadEncrypt ks mac plaintext key nonce) key nonce = .ok plaintext := by
  constructor
  · simp only [encrypt, encrypt_with_algorithm, XorCipher.decrypt]
    rw [xorBody_xorBody]
  · simp only [aeadEncrypt, aeadDecrypt]
    have hblen : (plaintext.enum.map fun ib => ib.2 ^^^ ks key nonce ib.1).length =
        plaintext.length := by simp
    have hlen : ((plaintext.enum.map fun ib => ib.2 ^^^ ks key nonce ib.1) ++
        mac (plaintext.enum.map fun ib => ib.2 ^^^ ks key nonce ib.1) key nonce).length =
        plaintext.length + 16 := by
      rw [List.length_append, hblen, hmac]
    rw [hlen]
    rw [if_neg (by omega)]
    have hsub : plaintext.length + 16 - 16 = plaintext.length := by omega
    rw [hsub]
    rw [List.take_append_of_le_length (by omega), List.take_of_length_le (by omega)]
    rw [List.drop_append_of_le_length (by omega)]
    rw [List.drop_of_length_le (by omega), List.nil_append]
    rw [if_pos rfl]
    rw [unxor_body]

/-- Witness for C1 at a concrete input: plaintext `[104, 105]`, a constant
32-byte key, an all-zero 12-byte nonce, constant-zero keystream and all-zero
tag function. -/
theorem claim_C1_witness :
    XorCipher.decrypt (encrypt (List.replicate 32 7, List.replicate 12 0) [104, 105]).1
        (encrypt (List.replicate 32 7, List.replicate 12 0) [104, 105]).2.1
        (encrypt (List.replicate 32 7, List.replicate 12 0) [104, 105]).2.2 = .ok [104, 105] ∧
    aeadDecrypt (fun _ _ _ => 0) (fun _ _ _ => List.replicate 16 0)
        (aeadEncrypt (fun _ _ _ => 0) (fun _ _ _ => List.replicate 16 0) [104, 105]
          (List.replicate 32 7) (List.replicate 12 0))
        (List.replicate 32 7) (List.replicate 12 0) = .ok [104, 105] :=
  claim_C1 [104, 105] (List.replicate 32 7) (List.replicate 12 0)
    (by simp [XorCipher.KEY_SIZE]) (by simp [XorCipher.NONCE_SIZE])
    (fun _ _ _ => 0) (fun _ _ _ => List.replicate 16 0)
    (fun b k n => by simp)

/-- Claim C8: the XOR backend's `decrypt` never errors: for every ciphertext,
key of length `KEY_SIZE` and nonce, it returns `Ok` of a sequence of the
ciphertext's length whose byte `i` is `ciphertext[i] XOR key[i mod KEY_SIZE]`,
the result is independent of the nonce, and applying the operation twice
returns the original input. -/
theorem claim_C8 (ciphertext key nonce : List Nat) (hk : key.length = XorCipher.KEY_SIZE) :
    XorCipher.decrypt ciphertext key nonce = .ok (XorCipher.xorBody ciphertext key) ∧
    (XorCipher.xorBody ciphertext key).length = ciphertext.length ∧
    (∀ i, i < ciphertext.length →
      (XorCipher.xorBody ciphertext key).getD i 0 =
        ciphertext.getD i 0 ^^^ key.getD (i % XorCipher.KEY_SIZE) 0) ∧
    (∀ nonce', XorCipher.decrypt ciphertext key nonce' =
      XorCipher.decrypt ciphertext key nonce) ∧
    XorCipher.decrypt (XorCipher.xorBody ciphertext key) key nonce = .ok ciphertext := by
  refine ⟨rfl, by simp [XorCipher.xorBody], ?_, fun nonce' => rfl, ?_⟩
  · intro i hi
    have hlen : i < (XorCipher.xorBody ciphertext key).length := by
      simp [XorCipher.xorBody]
      exact hi
    rw [List.getD_eq_getElem _ _ hlen, List.getD_eq_getElem _ _ hi]
    simp only [XorCipher.xorBody, List.getElem_map, List.getElem_enum]
  · simp only [XorCipher.decrypt]
    rw [xorBody_xorBody]

/-- Witness for C8 at a concrete input: ciphertext `[1, 2, 3]`, constant
32-byte key, all-zero 12-byte nonce. -/
theorem claim_C8_witness :
    XorCipher.decrypt [1, 2, 3] (List.replicate 32 5) (List.replicate 12 0) =
        .ok (XorCipher.xorBody [1, 2, 3] (List.replicate 32 5)) ∧
    (XorCipher.xorBody [1, 2, 3] (List.replicate 32 5)).length = ([1, 2, 3] : List Nat).length ∧
    (∀ i, i < ([1, 2, 3] : List Nat).length →
      (XorCipher.xorBody [1, 2, 3] (List.replicate 32 5)).getD i 0 =
        ([1, 2, 3] : List Nat).getD i 0 ^^^
          (List.replicate 32 5).getD (i % XorCipher.KEY_SIZE) 0) ∧
    (∀ nonce', XorCipher.decrypt [1, 2, 3] (List.replicate 32 5) nonce' =
      XorCipher.decrypt [1, 2, 3] (List.replicate 32 5) (List.replicate 12 0)) ∧
    XorCipher.decrypt (XorCipher.xorBody [1, 2, 3] (List.replicate 32 5))
        (List.replicate 32 5) (List.replicate 12 0) = .ok [1, 2, 3] :=
  claim_C8 [1, 2, 3] (List.replicate 32 5) (List.replicate 12 0)
    (by simp [XorCipher.KEY_SIZE])

/-! ## Deterministic key/nonce derivation (`obfuse-macros/src/encrypt.rs`) -/

/-- Modelled from the spec: `ChaCha20Rng` lives in the external `rand_chacha`
crate; the spec describes it as a deterministic stream-cipher-based
pseudo-random generator seeded by a 32-byte value.  Modelled as a byte stream
(a function of the seed and the position) plus a position counter. -/
structure Rng where
  stream : Nat → Nat
  pos : Nat

/-- Modelled from the spec: `ChaCha20Rng::from_seed`, parametrised by the
generator's stream function `chacha`. -/
def Rng.from_seed (chacha : List Nat → Nat → Nat) (seed : List Nat) : Rng :=
  ⟨chacha seed, 0⟩

/-- Modelled from the spec: `rng.fill_bytes(&mut buf)` for a buffer of `n`
bytes draws the next `n` stream bytes and advances the generator. -/
def Rng.fill_bytes (r : Rng) (n : Nat) : List Nat × Rng :=
  ((List.range n).map fun i => r.stream (r.pos + i), ⟨r.stream, r.pos + n⟩)

/-- `generate_deterministic` from `obfuse-macros/src/encrypt.rs`: seeds the
ChaCha20-based generator with `create_seed_bytes(seed)`, then fills the key and
then the nonce from it.  `keySize`/`nonceSize` stand for the per-backend
`KEY_SIZE`/`NONCE_SIZE` constants; `chacha` is the external generator's stream. -/
def generate_deterministic (chacha : List Nat → Nat → Nat) (keySize nonceSize : Nat)
    (seed : List Nat) : List Nat × List Nat :=
  let seed_bytes := create_seed_bytes seed
  let rng := Rng.from_seed chacha seed_bytes
  let kr := rng.fill_bytes keySize
  let nr := kr.2.fill_bytes nonceSize
  (kr.1, nr.1)

/-- Claim C5: deterministic-mode derivation seeds the stream generator with the
32-byte output of `create_seed_bytes` (whose length is proved to be 32), draws
the `KEY_SIZE` key bytes first (stream positions `0..KEY_SIZE`) and the
`NONCE_SIZE` nonce bytes second (positions `KEY_SIZE..KEY_SIZE+NONCE_SIZE`);
consequently two derivations from equal seed strings yield identical derived
seeds and identical key/nonce pairs. -/
theorem claim_C5 (chacha : List Nat → Nat → Nat) (keySize nonceSize : Nat)
    (seed seed' : List Nat) :
    (create_seed_bytes seed).length = 32 ∧
    (generate_deterministic chacha keySize nonceSize seed).1 =
      (List.range keySize).map (chacha (create_seed_bytes seed)) ∧
    (generate_deterministic chacha keySize nonceSize seed).2 =
      (List.range nonceSize).map (fun i => chacha (create_seed_bytes seed) (keySize + i)) ∧
    (seed = seed' →
      create_seed_bytes seed = create_seed_bytes seed' ∧
      generate_deterministic chacha keySize nonceSize seed =
        generate_deterministic chacha keySize nonceSize seed') := by
  refine ⟨create_seed_bytes_length seed, ?_, ?_, ?_⟩
  · simp [generate_deterministic, Rng.from_seed, Rng.fill_bytes]
  · simp [generate_deterministic, Rng.from_seed, Rng.fill_bytes]
  · intro h
    rw [h]
    exact ⟨rfl, rfl⟩

/-! ## Runtime obfuscated value (`obfuse-core/src/obfuse_str.rs`) -/

/-- The backend `decrypt` signature the runtime is compiled against (one of the
four cfg-selected backends). -/
def Dec : Type := List Nat → List Nat → List Nat → Except ObfuseError (List Nat)

/-- `ObfuseStr`: the embedded triple plus the lazily populated plaintext cache
(`decrypted: OnceLock<Box<[u8]>>`, modelled as `Option`; `none` is the Locked
state, `some` the Unlocked state). -/
structure ObfuseStr where
  encrypted : List Nat
  key : List Nat
  nonce : List Nat
  decrypted : Option (List Nat)
deriving DecidableEq, Repr

namespace ObfuseStr

/-- `ObfuseStr::new`: stores the triple, performs no decryption. -/
def new (encrypted key nonce : List Nat) : ObfuseStr :=
  ⟨encrypted, key, nonce, none⟩

/-- `OnceLock::set` followed by `get`: the first write wins; a later write is
discarded and the stored value is returned. -/
def onceSet (cache : Option (List Nat)) (v : List Nat) : Option (List Nat) :=
  match cache with
  | some c => some c
  | none => some v

/-- `ObfuseStr::try_as_bytes`: return the cache when populated; otherwise run
the backend `decrypt`, on error return it and leave the value untouched, on
success store the plaintext through the once-cell and return the stored value. -/
def try_as_bytes (dec : Dec) (s : ObfuseStr) : Except ObfuseError (List Nat) × ObfuseStr :=
  match s.decrypted with
  | some cached => (.ok cached, s)
  | none =>
    match dec s.encrypted s.key s.nonce with
    | .error e => (.error e, s)
    | .ok plaintext =>
      let cache1 := onceSet s.decrypted plaintext
      (.ok (cache1.getD plaintext), { s with decrypted := cache1 })

/-- `ObfuseStr::as_bytes`: the panicking variant; `none` models the panic. -/
def as_bytes (dec : Dec) (s : ObfuseStr) : Option (List Nat) × ObfuseStr :=
  match try_as_bytes dec s with
  | (.ok b, s1) => (some b, s1)
  | (.error _, s1) => (none, s1)

/-- `ObfuseStr::is_decrypted`: whether the cache is populated. -/
def is_decrypted (s : ObfuseStr) : Bool :=
  s.decrypted.isSome

/-- `ObfuseStr::try_decrypt`: pre-warm, discarding the bytes. -/
def try_decrypt (dec : Dec) (s : ObfuseStr) : Except ObfuseError Unit × ObfuseStr :=
  ((try_as_bytes dec s).1.map fun _ => (), (try_as_bytes dec s).2)

/-- `ObfuseStr::zeroize`: overwrite key and nonce with zero bytes in place and,
when the cache is populated, overwrite the cached plaintext with zero bytes in
place (lengths are unchanged; the cache stays populated). -/
def zeroize (s : ObfuseStr) : ObfuseStr :=
  { s with
    key := List.replicate s.key.length 0
    nonce := List.replicate s.nonce.length 0
    decrypted := s.decrypted.map fun c => List.replicate c.length 0 }

end ObfuseStr

/-- Claim C3: on a Locked value whose backend decrypt fails, `try_as_bytes`
returns that error and the value remains Locked: the state is unchanged, the
cache stays unpopulated, `is_decrypted` is false, a retry runs the same failing
decryption again, and a later access with a succeeding decrypt still succeeds
(decryption is re-run, not poisoned). -/
theorem claim_C3 (dec : Dec) (s : ObfuseStr) (e : ObfuseError)
    (hlocked : s.decrypted = none)
    (hfail : dec s.encrypted s.key s.nonce = .error e) :
    (ObfuseStr.try_as_bytes dec s).1 = .error e ∧
    (ObfuseStr.try_as_bytes dec s).2 = s ∧
    (ObfuseStr.try_as_bytes dec s).2.decrypted = none ∧
    ObfuseStr.is_decrypted (ObfuseStr.try_as_bytes dec s).2 = false ∧
    ObfuseStr.try_as_bytes dec (ObfuseStr.try_as_bytes dec s).2 =
      ObfuseStr.try_as_bytes dec s ∧
    (∀ dec1 p, dec1 s.encrypted s.key s.nonce = .ok p →
      (ObfuseStr.try_as_bytes dec1 (ObfuseStr.try_as_bytes dec s).2).1 = .ok p) := by
  have hb : ObfuseStr.try_as_bytes dec s = (.error e, s) := by
    simp only [ObfuseStr.try_as_bytes, hlocked, hfail]
  refine ⟨by rw [hb], by rw [hb], by rw [hb, hlocked], ?_, by rw [hb]; exact hb, ?_⟩
  · rw [hb]
    simp [ObfuseStr.is_decrypted, hlocked]
  · intro dec1 p hok
    rw [hb]
    simp only [ObfuseStr.try_as_bytes, hlocked, hok, ObfuseStr.onceSet, Option.getD_some]

/-- Witness for C3 at a concrete input: an empty ciphertext, all-zero key and
nonce, Locked cache, and a backend decrypt that always fails authentication. -/
theorem claim_C3_witness :
    (ObfuseStr.try_as_bytes (fun _ _ _ => .error .AuthenticationFailed)
        (ObfuseStr.new [1] (List.replicate 32 0) (List.replicate 12 0))).1 =
      .error .AuthenticationFailed ∧
    (ObfuseStr.try_as_bytes (fun _ _ _ => .error .AuthenticationFailed)
        (ObfuseStr.new [1] (List.replicate 32 0) (List.replicate 12 0))).2 =
      ObfuseStr.new [1] (List.replicate 32 0) (List.replicate 12 0) ∧
    (ObfuseStr.try_as_bytes (fun _ _ _ => .error .AuthenticationFailed)
        (ObfuseStr.new [1] (List.replicate 32 0) (List.replicate 12 0))).2.decrypted = none ∧
    ObfuseStr.is_decrypted
      (ObfuseStr.try_as_bytes (fun _ _ _ => .error .AuthenticationFailed)
        (ObfuseStr.new [1] (List.replicate 32 0) (List.replicate 12 0))).2 = false ∧
    ObfuseStr.try_as_bytes (fun _ _ _ => .error .AuthenticationFailed)
      (ObfuseStr.try_as_bytes (fun _ _ _ => .error .AuthenticationFailed)
        (ObfuseStr.new [1] (List.replicate 32 0) (List.replicate 12 0))).2 =
      ObfuseStr.try_as_bytes (fun _ _ _ => .error .AuthenticationFailed)
        (ObfuseStr.new [1] (List.replicate 32 0) (List.replicate 12 0)) ∧
    (∀ dec1 p,
      dec1 (ObfuseStr.new [1] (List.replicate 32 0) (List.replicate 12 0)).encrypted
          (ObfuseStr.new [1] (List.replicate 32 0) (List.replicate 12 0)).key
          (ObfuseStr.new [1] (List.replicate 32 0) (List.replicate 12 0)).nonce = .ok p →
      (ObfuseStr.try_as_bytes dec1
        (ObfuseStr.try_as_bytes (fun _ _ _ => .error .AuthenticationFailed)
          (ObfuseStr.new [1] (List.replicate 32 0) (List.replicate 12 0))).2).1 = .ok p) :=
  claim_C3 (fun _ _ _ => .error .AuthenticationFailed)
    (ObfuseStr.new [1] (List.replicate 32 0) (List.replicate 12 0))
    .AuthenticationFailed rfl rfl

/-! ## UTF-8 validation

Modelled from the spec: `try_as_str` calls the standard library's
`std::str::from_utf8`, which is outside this repository; the spec says it
"validates the bytes as well-formed text" and that the `InvalidUtf8` error
carries "the original byte offset of the first invalid sequence".  The
validator below is proved equivalent to the declarative well-formedness
predicate `Utf8WF` (a concatenation of standard UTF-8 encodings of Unicode
scalar values). -/

/-- A Unicode scalar value: below `0x110000` and not a surrogate. -/
def ScalarValue (c : Nat) : Prop :=
  c < 0x110000 ∧ (c < 0xD800 ∨ 0xE000 ≤ c)

/-- The standard UTF-8 encoding of a scalar value (1 to 4 bytes). -/
def encodeChar (c : Nat) : List Nat :=
  if c < 0x80 then [c]
  else if c < 0x800 then [0xC0 + c / 64, 0x80 + c % 64]
  else if c < 0x10000 then [0xE0 + c / 4096, 0x80 + c / 64 % 64, 0x80 + c % 64]
  else [0xF0 + c / 262144, 0x80 + c / 4096 % 64, 0x80 + c / 64 % 64, 0x80 + c % 64]

/-- Well-formed UTF-8: a concatenation of encodings of scalar values. -/
inductive Utf8WF : List Nat → Prop where
  | nil : Utf8WF []
  | cons (c : Nat) (rest : List Nat) :
      ScalarValue c → Utf8WF rest → Utf8WF (encodeChar c ++ rest)

/-- A valid one-byte (ASCII) leading byte. -/
def valid1 (b0 : Nat) : Prop := b0 < 0x80

/-- A valid two-byte sequence (leading byte `0xC2..=0xDF`, one continuation). -/
def valid2 (b0 b1 : Nat) : Prop :=
  0xC2 ≤ b0 ∧ b0 ≤ 0xDF ∧ 0x80 ≤ b1 ∧ b1 ≤ 0xBF

/-- A valid three-byte sequence: the second-byte range depends on the leading
byte exactly as in the standard UTF-8 table (no overlongs, no surrogates). -/
def valid3 (b0 b1 b2 : Nat) : Prop :=
  0x80 ≤ b2 ∧ b2 ≤ 0xBF ∧
  ((b0 = 0xE0 ∧ 0xA0 ≤ b1 ∧ b1 ≤ 0xBF) ∨
   (0xE1 ≤ b0 ∧ b0 ≤ 0xEC ∧ 0x80 ≤ b1 ∧ b1 ≤ 0xBF) ∨
   (b0 = 0xED ∧ 0x80 ≤ b1 ∧ b1 ≤ 0x9F) ∨
   (0xEE ≤ b0 ∧ b0 ≤ 0xEF ∧ 0x80 ≤ b1 ∧ b1 ≤ 0xBF))

/-- A valid four-byte sequence: the second-byte range depends on the leading
byte exactly as in the standard UTF-8 table (no overlongs, max `U+10FFFF`). -/
def valid4 (b0 b1 b2 b3 : Nat) : Prop :=
  0x80 ≤ b2 ∧ b2 ≤ 0xBF ∧ 0x80 ≤ b3 ∧ b3 ≤ 0xBF ∧
  ((b0 = 0xF0 ∧ 0x90 ≤ b1 ∧ b1 ≤ 0xBF) ∨
   (0xF1 ≤ b0 ∧ b0 ≤ 0xF3 ∧ 0x80 ≤ b1 ∧ b1 ≤ 0xBF) ∨
   (b0 = 0xF4 ∧ 0x80 ≤ b1 ∧ b1 ≤ 0x8F))

instance (b0 : Nat) : Decidable (valid1 b0) := by unfold valid1; infer_instance
instance (b0 b1 : Nat) : Decidable (valid2 b0 b1) := by unfold valid2; infer_instance
instance (b0 b1 b2 : Nat) : Decidable (valid3 b0 b1 b2) := by unfold valid3; infer_instance
instance (b0 b1 b2 b3 : Nat) : Decidable (valid4 b0 b1 b2 b3) := by
  unfold valid4; infer_instance

/-- Length of the valid UTF-8 sequence at the head of `bs`, if any. -/
def utf8SeqLength (bs : List Nat) : Option Nat :=
  if 1 ≤ bs.length ∧ valid1 (bs.getD 0 0) then some 1
  else if 2 ≤ bs.length ∧ valid2 (bs.getD 0 0) (bs.getD 1 0) then some 2
  else if 3 ≤ bs.length ∧ valid3 (bs.getD 0 0) (bs.getD 1 0) (bs.getD 2 0) then some 3
  else if 4 ≤ bs.length ∧ valid4 (bs.getD 0 0) (bs.getD 1 0) (bs.getD 2 0) (bs.getD 3 0)
    then some 4
  else none

lemma utf8SeqLength_some {bs : List Nat} {n : Nat} (h : utf8SeqLength bs = some n) :
    1 ≤ n ∧ n ≤ 4 ∧ n ≤ bs.length := by
  unfold utf8SeqLength at h
  split_ifs at h with h1 h2 h3 h4 <;> cases h <;> omega

lemma utf8SeqLength_nil : utf8SeqLength [] = none := by
  unfold utf8SeqLength
  simp

/-- The validator: scan `bs` from byte offset `idx`, consuming one valid
sequence at a time; on the first invalid sequence report the offset reached. -/
def validateUtf8From (bs : List Nat) (idx : Nat) : Option Utf8Error :=
  match h : utf8SeqLength bs with
  | some n => validateUtf8From (bs.drop n) (idx + n)
  | none => if bs.isEmpty then none else some ⟨idx⟩
termination_by bs.length
decreasing_by
  have hn := utf8SeqLength_some h
  simp only [List.length_drop]
  omega

lemma validateUtf8From_seq_some {bs : List Nat} {n : Nat} (idx : Nat)
    (hseq : utf8SeqLength bs = some n) :
    validateUtf8From bs idx = validateUtf8From (bs.drop n) (idx + n) := by
  rw [validateUtf8From, hseq]

lemma validateUtf8From_seq_none {bs : List Nat} (idx : Nat)
    (hseq : utf8SeqLength bs = none) :
    validateUtf8From bs idx = if bs.isEmpty then none else some ⟨idx⟩ := by
  rw [validateUtf8From, hseq]

lemma take_one_getD {bs : List Nat} (h : 1 ≤ bs.length) : bs.take 1 = [bs.getD 0 0] := by
  cases bs with
  | nil => simp at h
  | cons a t => simp

lemma take_two_getD {bs : List Nat} (h : 2 ≤ bs.length) :
    bs.take 2 = [bs.getD 0 0, bs.getD 1 0] := by
  cases bs with
  | nil => simp at h
  | cons a t =>
    cases t with
    | nil => simp at h
    | cons b t2 => simp

lemma take_three_getD {bs : List Nat} (h : 3 ≤ bs.length) :
    bs.take 3 = [bs.getD 0 0, bs.getD 1 0, bs.getD 2 0] := by
  cases bs with
  | nil => simp at h
  | cons a t =>
    cases t with
    | nil => simp at h
    | cons b t2 =>
      cases t2 with
      | nil => simp at h
      | cons c t3 => simp

lemma take_four_getD {bs : List Nat} (h : 4 ≤ bs.length) :
    bs.take 4 = [bs.getD 0 0, bs.getD 1 0, bs.getD 2 0, bs.getD 3 0] := by
  cases bs with
  | nil => simp at h
  | cons a t =>
    cases t with
    | nil => simp at h
    | cons b t2 =>
      cases t2 with
      | nil => simp at h
      | cons c t3 =>
        cases t3 with
        | nil => simp at h
        | cons d t4 => simp

lemma valid1_sound {b0 : Nat} (h : valid1 b0) :
    ∃ c, ScalarValue c ∧ encodeChar c = [b0] := by
  unfold valid1 at h
  refine ⟨b0, ⟨by omega, Or.inl (by omega)⟩, ?_⟩
  unfold encodeChar
  rw [if_pos h]

lemma valid2_sound {b0 b1 : Nat} (h : valid2 b0 b1) :
    ∃ c, ScalarValue c ∧ encodeChar c = [b0, b1] := by
  obtain ⟨h1, h2, h3, h4⟩ := h
  refine ⟨(b0 - 0xC0) * 64 + (b1 - 0x80), ⟨by omega, Or.inl (by omega)⟩, ?_⟩
  unfold encodeChar
  rw [if_neg (by omega), if_pos (by omega)]
  have e1 : ((b0 - 0xC0) * 64 + (b1 - 0x80)) / 64 = b0 - 0xC0 := by omega
  have e2 : ((b0 - 0xC0) * 64 + (b1 - 0x80)) % 64 = b1 - 0x80 := by omega
  rw [e1, e2]
  simp only [List.cons.injEq, and_true]
  omega

lemma valid3_sound {b0 b1 b2 : Nat} (h : valid3 b0 b1 b2) :
    ∃ c, ScalarValue c ∧ encodeChar c = [b0, b1, b2] := by
  obtain ⟨h1, h2, harm⟩ := h
  refine ⟨(b0 - 0xE0) * 4096 + (b1 - 0x80) * 64 + (b2 - 0x80), ⟨by omega, by omega⟩, ?_⟩
  unfold encodeChar
  rw [if_neg (by omega), if_neg (by omega), if_pos (by omega)]
  have e1 : ((b0 - 0xE0) * 4096 + (b1 - 0x80) * 64 + (b2 - 0x80)) / 4096 = b0 - 0xE0 := by
    omega
  have e2 : ((b0 - 0xE0) * 4096 + (b1 - 0x80) * 64 + (b2 - 0x80)) / 64 % 64 = b1 - 0x80 := by
    omega
  have e3 : ((b0 - 0xE0) * 4096 + (b1 - 0x80) * 64 + (b2 - 0x80)) % 64 = b2 - 0x80 := by
    omega
  rw [e1, e2, e3]
  simp only [List.cons.injEq, and_true]
  omega

lemma valid4_sound {b0 b1 b2 b3 : Nat} (h : valid4 b0 b1 b2 b3) :
    ∃ c, ScalarValue c ∧ encodeChar c = [b0, b1, b2, b3] := by
  obtain ⟨h1, h2, h3, h4, harm⟩ := h
  refine ⟨(b0 - 0xF0) * 262144 + (b1 - 0x80) * 4096 + (b2 - 0x80) * 64 + (b3 - 0x80),
    ⟨by omega, Or.inr (by omega)⟩, ?_⟩
  unfold encodeChar
  rw [if_neg (by omega), if_neg (by omega), if_neg (by omega)]
  have e1 : ((b0 - 0xF0) * 262144 + (b1 - 0x80) * 4096 + (b2 - 0x80) * 64 + (b3 - 0x80)) /
      262144 = b0 - 0xF0 := by omega
  have e2 : ((b0 - 0xF0) * 262144 + (b1 - 0x80) * 4096 + (b2 - 0x80) * 64 + (b3 - 0x80)) /
      4096 % 64 = b1 - 0x80 := by omega
  have e3 : ((b0 - 0xF0) * 262144 + (b1 - 0x80) * 4096 + (b2 - 0x80) * 64 + (b3 - 0x80)) /
      64 % 64 = b2 - 0x80 := by omega
  have e4 : ((b0 - 0xF0) * 262144 + (b1 - 0x80) * 4096 + (b2 - 0x80) * 64 + (b3 - 0x80)) %
      64 = b3 - 0x80 := by omega
  rw [e1, e2, e3, e4]
  simp only [List.cons.injEq, and_true]
  omega

/-- Each sequence the validator accepts is the encoding of a scalar value. -/
lemma utf8SeqLength_sound {bs : List Nat} {n : Nat} (h : utf8SeqLength bs = some n) :
    ∃ c, ScalarValue c ∧ bs.take n = encodeChar c := by
  unfold utf8SeqLength at h
  split_ifs at h with h1 h2 h3 h4
  · cases h
    obtain ⟨c, hc, he⟩ := valid1_sound h1.2
    exact ⟨c, hc, by rw [take_one_getD h1.1, he]⟩
  · cases h
    obtain ⟨c, hc, he⟩ := valid2_sound h2.2
    exact ⟨c, hc, by rw [take_two_getD h2.1, he]⟩
  · cases h
    obtain ⟨c, hc, he⟩ := valid3_sound h3.2
    exact ⟨c, hc, by rw [take_three_getD h3.1, he]⟩
  · cases h
    obtain ⟨c, hc, he⟩ := valid4_sound h4.2
    exact ⟨c, hc, by rw [take_four_getD h4.1, he]⟩

/-- The encoding of any scalar value is accepted by the validator, whatever
follows it. -/
lemma utf8SeqLength_complete {c : Nat} (hc : ScalarValue c) (rest : List Nat) :
    utf8SeqLength (encodeChar c ++ rest) = some (encodeChar c).length := by
  obtain ⟨hlt, hsur⟩ := hc
  unfold encodeChar
  by_cases h1 : c < 0x80
  · rw [if_pos h1]
    unfold utf8SeqLength
    rw [if_pos (by simp [valid1]; omega)]
    rfl
  · rw [if_neg h1]
    by_cases h2 : c < 0x800
    · rw [if_pos h2]
      unfold utf8SeqLength
      rw [if_neg (by simp [valid1]; omega), if_pos (by simp [valid2]; omega)]
      rfl
    · rw [if_neg h2]
      by_cases h3 : c < 0x10000
      · rw [if_pos h3]
        unfold utf8SeqLength
        rw [if_neg (by simp [valid1]; omega), if_neg (by simp [valid2]; omega),
          if_pos (by simp [valid3]; omega)]
        rfl
      · rw [if_neg h3]
        unfold utf8SeqLength
        rw [if_neg (by simp [valid1]; omega), if_neg (by simp [valid2]; omega),
          if_neg (by simp [valid3]; omega), if_pos (by simp [valid4]; omega)]
        rfl

lemma Utf8WF.append : ∀ {a b : List Nat}, Utf8WF a → Utf8WF b → Utf8WF (a ++ b) := by
  intro a b ha hb
  induction ha with
  | nil => simpa using hb
  | cons c rest hc hrest ih =>
      rw [List.append_assoc]
      exact Utf8WF.cons c (rest ++ b) hc ih

lemma validate_none_wf_aux (N : Nat) :
    ∀ bs idx, bs.length ≤ N → validateUtf8From bs idx = none → Utf8WF bs := by
  induction N with
  | zero =>
      intro bs idx hlen _
      have hbs : bs = [] := List.eq_nil_of_length_eq_zero (by omega)
      rw [hbs]
      exact Utf8WF.nil
  | succ N ih =>
      intro bs idx h
      cases hseq : utf8SeqLength bs with
      | none =>
          cases bs with
          | nil => intro _; exact Utf8WF.nil
          | cons a t =>
              intro hcontra
              rw [validateUtf8From_seq_none idx hseq] at hcontra
              simp at hcontra
      | some n =>
          intro hval
          rw [validateUtf8From_seq_some idx hseq] at hval
          obtain ⟨hn1, _, hn3⟩ := utf8SeqLength_some hseq
          obtain ⟨c, hc, htake⟩ := utf8SeqLength_sound hseq
          have hwf := ih (bs.drop n) (idx + n)
            (by simp only [List.length_drop]; omega) hval
          have hsplit := (List.take_append_drop n bs).symm
          rw [hsplit, htake]
          exact Utf8WF.cons c _ hc hwf

lemma wf_validate_none {bs : List Nat} (h : Utf8WF bs) :
    ∀ idx, validateUtf8From bs idx = none := by
  induction h with
  | nil =>
      intro idx
      rw [validateUtf8From_seq_none idx utf8SeqLength_nil]
      rfl
  | cons c rest hc hrest ih =>
      intro idx
      rw [validateUtf8From_seq_some idx (utf8SeqLength_complete hc rest)]
      rw [List.drop_left]
      exact ih _

lemma validate_some_aux (N : Nat) :
    ∀ bs idx err, bs.length ≤ N → validateUtf8From bs idx = some err →
      idx ≤ err.valid_up_to ∧
      Utf8WF (bs.take (err.valid_up_to - idx)) ∧
      utf8SeqLength (bs.drop (err.valid_up_to - idx)) = none ∧
      bs.drop (err.valid_up_to - idx) ≠ [] := by
  induction N with
  | zero =>
      intro bs idx err hlen h
      have hbs : bs = [] := List.eq_nil_of_length_eq_zero (by omega)
      subst hbs
      rw [validateUtf8From_seq_none idx utf8SeqLength_nil] at h
      simp at h
  | succ N ih =>
      intro bs idx err hlen h
      cases hseq : utf8SeqLength bs with
      | none =>
          cases bs with
          | nil =>
              rw [validateUtf8From_seq_none idx hseq] at h
              simp at h
          | cons a t =>
              rw [validateUtf8From_seq_none idx hseq] at h
              simp only [List.isEmpty_cons, if_neg] at h
              cases err with
              | mk j =>
                  have hji : j = idx := by
                    cases h
                    rfl
                  subst hji
                  refine ⟨le_refl _, ?_, ?_, ?_⟩
                  · rw [Nat.sub_self]
                    exact Utf8WF.nil
                  · rw [Nat.sub_self]
                    exact hseq
                  · rw [Nat.sub_self]
                    simp
      | some n =>
          rw [validateUtf8From_seq_some idx hseq] at h
          obtain ⟨hn1, _, hn3⟩ := utf8SeqLength_some hseq
          obtain ⟨c, hc, htake⟩ := utf8SeqLength_sound hseq
          obtain ⟨hle, hwf, hnone, hne⟩ := ih (bs.drop n) (idx + n) err
            (by simp only [List.length_drop]; omega) h
          have hj : err.valid_up_to - idx = n + (err.valid_up_to - (idx + n)) := by omega
          refine ⟨by omega, ?_, ?_, ?_⟩
          · rw [hj, List.take_add]
            refine Utf8WF.append ?_ hwf
            rw [htake]
            have hone := Utf8WF.cons c [] hc Utf8WF.nil
            simpa using hone
          · rw [hj, ← List.drop_drop]
            exact hnone
          · rw [hj, ← List.drop_drop]
            exact hne

/-- The validator accepts exactly the well-formed byte sequences. -/
lemma validateUtf8_none_iff (bs : List Nat) : validateUtf8From bs 0 = none ↔ Utf8WF bs :=
  ⟨fun h => validate_none_wf_aux bs.length bs 0 le_rfl h, fun h => wf_validate_none h 0⟩

/-- On failure the reported offset is the end of the longest well-formed
prefix: the bytes before it are well-formed and the sequence starting at it is
invalid (and nonempty). -/
lemma validateUtf8_some {bs : List Nat} {err : Utf8Error}
    (h : validateUtf8From bs 0 = some err) :
    Utf8WF (bs.take err.valid_up_to) ∧
    utf8SeqLength (bs.drop err.valid_up_to) = none ∧
    bs.drop err.valid_up_to ≠ [] := by
  obtain ⟨_, hwf, hnone, hne⟩ := validate_some_aux bs.length bs 0 err le_rfl h
  rw [Nat.sub_zero] at hwf hnone hne
  exact ⟨hwf, hnone, hne⟩

/-- Modelled from the spec: `std::str::from_utf8` — `Ok` with the same bytes
(viewed as text) when well-formed, otherwise the diagnostic with the offset of
the first invalid sequence. -/
def from_utf8 (bs : List Nat) : Except Utf8Error (List Nat) :=
  match validateUtf8From bs 0 with
  | none => .ok bs
  | some e => .error e

/-- `ObfuseStr::try_as_str`: `let bytes = self.try_as_bytes()?;` then
`std::str::from_utf8(bytes).map_err(ObfuseError::from)`. -/
def ObfuseStr.try_as_str (dec : Dec) (s : ObfuseStr) :
    Except ObfuseError (List Nat) × ObfuseStr :=
  match ObfuseStr.try_as_bytes dec s with
  | (.error e, s1) => (.error e, s1)
  | (.ok bytes, s1) =>
    match from_utf8 bytes with
    | .ok str => (.ok str, s1)
    | .error e => (.error (.InvalidUtf8 e), s1)

/-- `ObfuseStr::as_str`: the panicking variant; `none` models the panic. -/
def ObfuseStr.as_str (dec : Dec) (s : ObfuseStr) : Option (List Nat) × ObfuseStr :=
  match ObfuseStr.try_as_str dec s with
  | (.ok b, s1) => (some b, s1)
  | (.error _, s1) => (none, s1)

/-- One public access operation of the accessor surface (`try_as_bytes` /
`as_bytes`, `try_as_str` / `as_str`, and the `try_decrypt` pre-warm; the
panicking variants delegate to the fallible ones and change state the same
way). -/
inductive AccessOp where
  | bytes : AccessOp
  | text : AccessOp
  | warm : AccessOp
deriving DecidableEq, Repr

/-- The state left behind by one access operation. -/
def stepOp (dec : Dec) (s : ObfuseStr) (op : AccessOp) : ObfuseStr :=
  match op with
  | .bytes => (ObfuseStr.try_as_bytes dec s).2
  | .text => (ObfuseStr.try_as_str dec s).2
  | .warm => (ObfuseStr.try_decrypt dec s).2

/-- The state after any sequence of access operations. -/
def runAccesses (dec : Dec) (ops : List AccessOp) (s : ObfuseStr) : ObfuseStr :=
  ops.foldl (stepOp dec) s

/-- Claim C4: once the cache is populated with `c`, it never changes: a
fallible or panicking byte access returns exactly `c` and leaves the state
unchanged, the result does not depend on the backend decrypt (no re-run), the
decrypted-predicate reports true, a once-cell write cannot displace the cached
value, and any sequence of accesses leaves the state — hence the cached
bytes — untouched. -/
theorem claim_C4 (dec : Dec) (s : ObfuseStr) (c : List Nat)
    (hcache : s.decrypted = some c) :
    ObfuseStr.try_as_bytes dec s = (.ok c, s) ∧
    ObfuseStr.as_bytes dec s = (some c, s) ∧
    ObfuseStr.is_decrypted s = true ∧
    (∀ dec1, ObfuseStr.try_as_bytes dec1 s = ObfuseStr.try_as_bytes dec s) ∧
    (∀ v, ObfuseStr.onceSet s.decrypted v = s.decrypted) ∧
    (∀ ops, runAccesses dec ops s = s) := by
  have hbytes : ∀ dec1 : Dec, ObfuseStr.try_as_bytes dec1 s = (.ok c, s) := by
    intro dec1
    simp only [ObfuseStr.try_as_bytes, hcache]
  refine ⟨hbytes dec, ?_, ?_, ?_, ?_, ?_⟩
  · simp only [ObfuseStr.as_bytes, hbytes dec]
  · simp only [ObfuseStr.is_decrypted, hcache, Option.isSome_some]
  · intro dec1
    rw [hbytes dec1, hbytes dec]
  · intro v
    simp only [ObfuseStr.onceSet, hcache]
  · intro ops
    have hstep : ∀ op, stepOp dec s op = s := by
      intro op
      cases op with
      | bytes => simp only [stepOp, hbytes dec]
      | text =>
          simp only [stepOp, ObfuseStr.try_as_str, hbytes dec]
          cases from_utf8 c with
          | ok str => rfl
          | error e => rfl
      | warm => simp only [stepOp, ObfuseStr.try_decrypt, hbytes dec]
    induction ops with
    | nil => rfl
    | cons op t ih =>
        simp only [runAccesses, List.foldl_cons, hstep op]
        exact ih

/-- Witness for C4 at a concrete input: a value whose cache holds `[7, 8]`,
with the XOR backend decrypt. -/
theorem claim_C4_witness :
    ObfuseStr.try_as_bytes XorCipher.decrypt
        ⟨[1], List.replicate 32 0, List.replicate 12 0, some [7, 8]⟩ =
      (.ok [7, 8], ⟨[1], List.replicate 32 0, List.replicate 12 0, some [7, 8]⟩) ∧
    ObfuseStr.as_bytes XorCipher.decrypt
        ⟨[1], List.replicate 32 0, List.replicate 12 0, some [7, 8]⟩ =
      (some [7, 8], ⟨[1], List.replicate 32 0, List.replicate 12 0, some [7, 8]⟩) ∧
    ObfuseStr.is_decrypted
        ⟨[1], List.replicate 32 0, List.replicate 12 0, some [7, 8]⟩ = true ∧
    (∀ dec1, ObfuseStr.try_as_bytes dec1
        ⟨[1], List.replicate 32 0, List.replicate 12 0, some [7, 8]⟩ =
      ObfuseStr.try_as_bytes XorCipher.decrypt
        ⟨[1], List.replicate 32 0, List.replicate 12 0, some [7, 8]⟩) ∧
    (∀ v, ObfuseStr.onceSet
        (ObfuseStr.mk [1] (List.replicate 32 0) (List.replicate 12 0) (some [7, 8])).decrypted
          v =
      (ObfuseStr.mk [1] (List.replicate 32 0) (List.replicate 12 0) (some [7, 8])).decrypted) ∧
    (∀ ops, runAccesses XorCipher.decrypt ops
        ⟨[1], List.replicate 32 0, List.replicate 12 0, some [7, 8]⟩ =
      ⟨[1], List.replicate 32 0, List.replicate 12 0, some [7, 8]⟩) :=
  claim_C4 XorCipher.decrypt
    ⟨[1], List.replicate 32 0, List.replicate 12 0, some [7, 8]⟩ [7, 8] rfl

/-- Claim C9 (as provable about the code): when decryption succeeds with
bytes `p`, the fallible text access returns `p` as text exactly when `p` is
well-formed UTF-8; otherwise it returns `InvalidUtf8` whose diagnostic's
`valid_up_to` is the byte offset of the first invalid sequence (the bytes
before it are well-formed, the sequence starting at it is invalid). -/
theorem claim_C9 (dec : Dec) (s : ObfuseStr) (p : List Nat)
    (hok : (ObfuseStr.try_as_bytes dec s).1 = .ok p) :
    (Utf8WF p → (ObfuseStr.try_as_str dec s).1 = .ok p) ∧
    (¬ Utf8WF p → ∃ err, (ObfuseStr.try_as_str dec s).1 = .error (.InvalidUtf8 err) ∧
      Utf8WF (p.take err.valid_up_to) ∧
      utf8SeqLength (p.drop err.valid_up_to) = none ∧
      p.drop err.valid_up_to ≠ []) := by
  have hpair : ObfuseStr.try_as_bytes dec s = (.ok p, (ObfuseStr.try_as_bytes dec s).2) := by
    cases hby : ObfuseStr.try_as_bytes dec s with
    | mk fst snd =>
        rw [hby] at hok
        simp only at hok
        rw [hok]
  constructor
  · intro hwf
    have hval : validateUtf8From p 0 = none := (validateUtf8_none_iff p).mpr hwf
    rw [ObfuseStr.try_as_str, hpair]
    simp only [from_utf8, hval]
  · intro hnwf
    cases hval : validateUtf8From p 0 with
    | none => exact absurd ((validateUtf8_none_iff p).mp hval) hnwf
    | some err =>
        obtain ⟨hwf, hnone, hne⟩ := validateUtf8_some hval
        refine ⟨err, ?_, hwf, hnone, hne⟩
        rw [ObfuseStr.try_as_str, hpair]
        simp only [from_utf8, hval]

/-- Witness for C9 at a concrete input: a value whose cache holds the
well-formed bytes `[104, 105]`. -/
theorem claim_C9_witness :
    (Utf8WF [104, 105] →
      (ObfuseStr.try_as_str XorCipher.decrypt
        ⟨[], List.replicate 32 0, List.replicate 12 0, some [104, 105]⟩).1 =
        .ok [104, 105]) ∧
    (¬ Utf8WF [104, 105] →
      ∃ err, (ObfuseStr.try_as_str XorCipher.decrypt
          ⟨[], List.replicate 32 0, List.replicate 12 0, some [104, 105]⟩).1 =
          .error (.InvalidUtf8 err) ∧
        Utf8WF (List.take err.valid_up_to [104, 105]) ∧
        utf8SeqLength (List.drop err.valid_up_to [104, 105]) = none ∧
        List.drop err.valid_up_to [104, 105] ≠ []) :=
  claim_C9 XorCipher.decrypt
    ⟨[], List.replicate 32 0, List.replicate 12 0, some [104, 105]⟩ [104, 105] rfl

/-- Claim C6, evaluated at the failing input: the triple embeds plaintext
`[0]` under the XOR key `[1, 0, ..., 0]` (ciphertext `[1]`).  Before any
access, `try_as_bytes` returns the original plaintext `[0]`; but calling
`zeroize` first (which zeroes the key of the still-Locked value) makes the
subsequent access decrypt against the zeroed key and return `[1]` — the raw
ciphertext, not the original plaintext. -/
theorem claim_C6_eval :
    (ObfuseStr.try_as_bytes XorCipher.decrypt
        (ObfuseStr.new [1] (1 :: List.replicate 31 0) (List.replicate 12 0))).1 =
      .ok [0] ∧
    (ObfuseStr.zeroize
        (ObfuseStr.new [1] (1 :: List.replicate 31 0) (List.replicate 12 0))).decrypted =
      none ∧
    (ObfuseStr.try_as_bytes XorCipher.decrypt
        (ObfuseStr.zeroize
          (ObfuseStr.new [1] (1 :: List.replicate 31 0) (List.replicate 12 0)))).1 =
      .ok [1] ∧
    ([1] : List Nat) ≠ [0] :=
  ⟨rfl, rfl, rfl, by decide⟩

/-- Counterexample to claim C10 as stated: a value whose populated cache holds
the all-zero plaintext `[0]`.  After `zeroize`, the fallible byte access
returns `Ok [0]` — bytes equal to the original cached plaintext, contradicting
the claim's "does not return the original plaintext". -/
theorem claim_C10_counterexample :
    (ObfuseStr.mk [] (List.replicate 32 0) (List.replicate 12 0) (some [0])).decrypted =
      some [0] ∧
    (ObfuseStr.try_as_bytes XorCipher.decrypt
        (ObfuseStr.zeroize
          (ObfuseStr.mk [] (List.replicate 32 0) (List.replicate 12 0) (some [0])))).1 =
      .ok [0] :=
  ⟨rfl, rfl⟩

/-- Claim C10 as amended: with the cache populated by `c`, `zeroize` leaves the
cache populated with `c.length` zero bytes, the decrypted-predicate still
reports true, every subsequent fallible byte access returns `Ok` of those
all-zero bytes without re-running decryption (the result is independent of the
backend decrypt) and without error — and the returned bytes equal the original
plaintext exactly when the original was already all zeroes. -/
theorem claim_C10_amended (dec : Dec) (s : ObfuseStr) (c : List Nat)
    (hcache : s.decrypted = some c) :
    (ObfuseStr.zeroize s).decrypted = some (List.replicate c.length 0) ∧
    ObfuseStr.is_decrypted (ObfuseStr.zeroize s) = true ∧
    ObfuseStr.try_as_bytes dec (ObfuseStr.zeroize s) =
      (.ok (List.replicate c.length 0), ObfuseStr.zeroize s) ∧
    (∀ dec1, ObfuseStr.try_as_bytes dec1 (ObfuseStr.zeroize s) =
      ObfuseStr.try_as_bytes dec (ObfuseStr.zeroize s)) ∧
    (List.replicate c.length 0 = c ↔ ∀ b ∈ c, b = 0) := by
  have hz : (ObfuseStr.zeroize s).decrypted = some (List.replicate c.length 0) := by
    simp only [ObfuseStr.zeroize, hcache, Option.map_some']
  have hbytes : ∀ dec1 : Dec, ObfuseStr.try_as_bytes dec1 (ObfuseStr.zeroize s) =
      (.ok (List.replicate c.length 0), ObfuseStr.zeroize s) := by
    intro dec1
    simp only [ObfuseStr.try_as_bytes, hz]
  refine ⟨hz, ?_, hbytes dec, fun dec1 => by rw [hbytes dec1, hbytes dec], ?_⟩
  · simp only [ObfuseStr.is_decrypted, hz, Option.isSome_some]
  · constructor
    · intro h b hb
      have := List.eq_replicate_iff.mp h.symm
      exact this.2 b hb
    · intro h
      exact (List.eq_replicate_iff.mpr ⟨rfl, h⟩).symm

/-- Witness for the amended C10 at a concrete input: a value whose cache holds
`[5]`, with the XOR backend decrypt. -/
theorem claim_C10_witness :
    (ObfuseStr.zeroize
        ⟨[], List.replicate 32 0, List.replicate 12 0, some [5]⟩).decrypted =
      some (List.replicate ([5] : List Nat).length 0) ∧
    ObfuseStr.is_decrypted
      (ObfuseStr.zeroize ⟨[], List.replicate 32 0, List.replicate 12 0, some [5]⟩) = true ∧
    ObfuseStr.try_as_bytes XorCipher.decrypt
        (ObfuseStr.zeroize ⟨[], List.replicate 32 0, List.replicate 12 0, some [5]⟩) =
      (.ok (List.replicate ([5] : List Nat).length 0),
        ObfuseStr.zeroize ⟨[], List.replicate 32 0, List.replicate 12 0, some [5]⟩) ∧
    (∀ dec1, ObfuseStr.try_as_bytes dec1
        (ObfuseStr.zeroize ⟨[], List.replicate 32 0, List.replicate 12 0, some [5]⟩) =
      ObfuseStr.try_as_bytes XorCipher.decrypt
        (ObfuseStr.zeroize ⟨[], List.replicate 32 0, List.replicate 12 0, some [5]⟩)) ∧
    (List.replicate ([5] : List Nat).length 0 = [5] ↔ ∀ b ∈ ([5] : List Nat), b = 0) :=
  claim_C10_amended XorCipher.decrypt
    ⟨[], List.replicate 32 0, List.replicate 12 0, some [5]⟩ [5] rfl

end Obfuse
